import Mathlib

/-!
Verification of `src/lid_functions.py` (AAMIR-Pack): a parser for LAMMPS
input data ("Lid") files.  The source has three layers:

* `lid_header`  — linear scan extracting counts / type counts / box bounds,
  stopping at the first section-keyword line (source lines 28-80);
* `parse_lid`   — linear scan recording, for each of the six section
  keywords, the zero-based index of the matching line (source lines 83-147);
* six extractors `masses`, `atoms`, `bonds`, `angles`, `dihedrals`,
  `impropers` (source lines 150-525) sharing one slicing algorithm,
  differing only in the section index and the warning text they print.

The embedding below takes the file content as a `List String` of lines
(the source reads the file with `readlines()`); console warnings are
I/O-only and are not modelled.  Python list assignment `l[i] = v` raises
`IndexError` when `i` is out of range, so writes are modelled with a
checked update returning `Except`.
-/

deriving instance DecidableEq for Except

namespace Lid

/-- Tokenizer state machine underlying `tokens`: splits a character list on
runs of whitespace, dropping empty pieces, accumulating the current token
in reverse. -/
def tokensAux : List Char → List Char → List (List Char)
  | [], cur => if cur = [] then [] else [cur.reverse]
  | ch :: rest, cur =>
    if ch.isWhitespace then
      (if cur = [] then tokensAux rest [] else cur.reverse :: tokensAux rest [])
    else tokensAux rest (ch :: cur)

/-- Python's `line.split()`: split on runs of whitespace, no empty tokens.
(Defined by structural recursion over the characters so that it evaluates
inside the kernel.) -/
def tokens (s : String) : List String :=
  (tokensAux s.toList []).map List.asString

/-- Python list assignment `l[i] = v`: in-range updates succeed, an
out-of-range index raises `IndexError`. -/
def pyset {α : Type} (l : List α) (i : Nat) (a : α) : Except String (List α) :=
  if i < l.length then .ok (l.set i a) else .error "IndexError"

/-- `sections` list of the source (line 56). -/
def sectionsKW : List String :=
  ["Masses", "Atoms", "Bonds", "Angles", "Dihedrals", "Impropers"]

/-- `molecular_prop` of the source (line 57). -/
def molecular_prop : List String := ["atoms", "bonds", "angles", "dihedrals", "impropers"]

/-- `types_prop` of the source (line 58). -/
def types_prop : List String := ["atom", "bond", "angle", "dihedral", "improper"]

/-- `boundary_prop` of the source (line 59). -/
def boundary_prop : List String := ["xlo", "xhi", "ylo", "yhi", "zlo", "zhi"]

/-- State of `lid_header`'s loop: `molecular_data`, `types_data`,
`boundary_data`.  The source initializes each slot with the integer `0`
and overwrites matched slots with strings; `none` stands for the initial
`0`, `some s` for a recorded string. -/
abbrev HeaderState :=
  List (Option String) × List (Option String) × List (Option String)

/-- One iteration of the `lid_header` loop (source lines 64-78).
`.ok none` models the `break` on a section-keyword line, `.ok (some st)`
continues with the updated state, `.error` models an `IndexError`. -/
def lid_header_step (line : String) (st : HeaderState) :
    Except String (Option HeaderState) :=
  let l := tokens line
  let md := st.1
  let td := st.2.1
  let bd := st.2.2
  if 2 ≤ l.length ∧ l.getD 1 "" ∈ molecular_prop then
    match pyset md (molecular_prop.indexOf (l.getD 1 "")) (some (l.getD 0 "")) with
    | .ok md' => .ok (some (md', td, bd))
    | .error e => .error e
  else if 3 ≤ l.length ∧ l.getD 1 "" ∈ types_prop then
    match pyset td (types_prop.indexOf (l.getD 1 "")) (some (l.getD 0 "")) with
    | .ok td' => .ok (some (md, td', bd))
    | .error e => .error e
  else if 4 ≤ l.length ∧ l.getD 2 "" ∈ boundary_prop then
    match pyset bd (boundary_prop.indexOf (l.getD 2 "")) (some (l.getD 0 "")) with
    | .ok bd1 =>
      match pyset bd1 (boundary_prop.indexOf (l.getD 2 "") + 1) (some (l.getD 1 "")) with
      | .ok bd2 => .ok (some (md, td, bd2))
      | .error e => .error e
    | .error e => .error e
  else if 1 ≤ l.length ∧ l.getD 0 "" ∈ sectionsKW then
    .ok none
  else
    .ok (some (md, td, bd))

/-- The `lid_header` loop over the remaining lines. -/
def lid_header_scan : List String → HeaderState → Except String HeaderState
  | [], st => .ok st
  | line :: rest, st =>
    match lid_header_step line st with
    | .error e => .error e
    | .ok none => .ok st
    | .ok (some st') => lid_header_scan rest st'

/-- `lid_header` (source lines 28-80) on the file's lines: returns
`(molecular_data, types_data, boundary_data)`, or an error if a list
assignment goes out of range. -/
def lid_header (lines : List String) : Except String HeaderState :=
  lid_header_scan lines
    (List.replicate 5 none, List.replicate 5 none, List.replicate 6 none)

/-- Body of the `parse_lid` loop (source lines 123-144): the six-branch
`elif` chain recording the current counter into the matching section's
table entry. -/
def parse_step (line : String) (t : List Nat) (c : Nat) : List Nat :=
  if 1 ≤ (tokens line).length ∧ (tokens line).getD 0 "" = "Masses" then t.set 0 c
  else if 1 ≤ (tokens line).length ∧ (tokens line).getD 0 "" = "Atoms" then t.set 1 c
  else if 1 ≤ (tokens line).length ∧ (tokens line).getD 0 "" = "Bonds" then t.set 2 c
  else if 1 ≤ (tokens line).length ∧ (tokens line).getD 0 "" = "Angles" then t.set 3 c
  else if 1 ≤ (tokens line).length ∧ (tokens line).getD 0 "" = "Dihedrals" then t.set 4 c
  else if 1 ≤ (tokens line).length ∧ (tokens line).getD 0 "" = "Impropers" then t.set 5 c
  else t

/-- The `parse_lid` loop: `counter` advances after every line, matched or
not. -/
def parse_lid_scan : List String → List Nat → Nat → List Nat
  | [], t, _ => t
  | line :: rest, t, c => parse_lid_scan rest (parse_step line t c) (c + 1)

/-- `parse_lid` (source lines 83-147).  The source returns six pairs
`[offset, 0]` whose second component is always `0` and only ever read
through `[...][0]` or tie-irrelevant list comparison, so the table is
modelled as the list of the six offsets. -/
def parse_lid (lines : List String) : List Nat :=
  parse_lid_scan lines [0, 0, 0, 0, 0, 0] 0

/-- The literal `5000000000000` used as the "not a valid next boundary"
sentinel in every extractor. -/
def sentinel : Int := 5000000000000

/-- Normalization of a Python slice bound for a list of length `n`:
negative indices count from the end and clamp at `0`; nonnegative indices
clamp at `n`. -/
def pyBound (n : Nat) (i : Int) : Nat :=
  if i < 0 then ((n : Int) + i).toNat else min i.toNat n

/-- Normalization of a Python slice upper bound: an omitted bound
(`l[start:]`) is the length. -/
def pyStop (n : Nat) : Option Int → Nat
  | none => n
  | some j => pyBound n j

/-- Python's `l[start:stop]` (with `stop = none` for an omitted bound, as
in `lines[start:]`). -/
def pySlice {α : Type} (l : List α) (start : Int) (stop : Option Int) : List α :=
  (l.drop (pyBound l.length start)).take (pyStop l.length stop - pyBound l.length start)

/-- Python's `max(in_data)[0]`: `max` over the list of `[offset, 0]` pairs
compares lexicographically, and the second components are all `0`, so the
result's first component is the maximum offset. -/
def pyMaxNat : List Nat → Nat
  | [] => 0
  | a :: r => r.foldl max a

/-- Python's `min(stop)` on the (always nonempty) list of differences.
The `[]` case is never reached on a 6-entry table. -/
def pyMinInt : List Int → Int
  | [] => 0
  | a :: r => r.foldl min a

/-- Python's `stop.index(v)`: index of the first occurrence.  (In the
source the value searched for is `min(stop)`, which is always present.) -/
def pyIndexOf : List Int → Int → Nat
  | [], _ => 0
  | a :: r, x => if a = x then 0 else pyIndexOf r x + 1

/-- The `stop` list built by the extractors' `for element in enumerate(in_data)`
loop: signed difference to the target offset, with zero and negative
differences replaced by the sentinel (source lines 183-192 and the five
analogous blocks). -/
def stopDiffs (in_data : List Nat) (off : Nat) : List Int :=
  in_data.map (fun e : Nat =>
    if (e : Int) - (off : Int) = 0 then sentinel
    else if (e : Int) - (off : Int) < 0 then sentinel
    else (e : Int) - (off : Int))

/-- The two `stop = ...` reassignments of the middle branch (source lines
194-195): the table entry at the first index achieving `min(stop)` in the
difference list. -/
def stopOf (in_data : List Nat) (off : Nat) : Nat :=
  in_data.getD (pyIndexOf (stopDiffs in_data off) (pyMinInt (stopDiffs in_data off))) 0

/-- The slicing and filtering epilogue shared by every extractor (source
lines 198-209 and the five analogous blocks): slice the raw lines, split
each, keep the lines that do not split to `[]`. -/
def extractBody (lines : List String) (start : Int) (stop : Option Int) :
    List (List String) :=
  ((pySlice lines start stop).map tokens).filter (fun l => l ≠ [])

/-- The extractor algorithm shared verbatim (up to the printed warning
text) by `masses`, `atoms`, `bonds`, `angles`, `dihedrals`, `impropers`:
the function body of source lines 150-209 with the section index `k` as a
parameter.  In the absent branch the source's dead `..._data = None`
assignment is overwritten by the filtering epilogue, which is entered with
`start = stop = -1`. -/
def extractSection (k : Nat) (lines : List String) : List (List String) :=
  let in_data := parse_lid lines
  if in_data.getD k 0 = 0 then
    extractBody lines (-1) (some (-1))
  else if in_data.getD k 0 = pyMaxNat in_data then
    extractBody lines ((in_data.getD k 0 : Int) + 1) none
  else
    extractBody lines ((in_data.getD k 0 : Int) + 1)
      (some ((stopOf in_data (in_data.getD k 0) : Int)))

/-- `masses` (source lines 150-209). -/
def masses (lines : List String) : List (List String) := extractSection 0 lines

/-- `atoms` (source lines 212-273). -/
def atoms (lines : List String) : List (List String) := extractSection 1 lines

/-- `bonds` (source lines 276-336). -/
def bonds (lines : List String) : List (List String) := extractSection 2 lines

/-- `angles` (source lines 339-399). -/
def angles (lines : List String) : List (List String) := extractSection 3 lines

/-- `dihedrals` (source lines 402-462). -/
def dihedrals (lines : List String) : List (List String) := extractSection 4 lines

/-- `impropers` (source lines 465-525). -/
def impropers (lines : List String) : List (List String) := extractSection 5 lines

/-- A line whose first token is the `i`-th section keyword (the exact,
case-sensitive match condition of the `parse_lid` branches). -/
def isKwLine (i : Nat) (line : String) : Prop :=
  1 ≤ (tokens line).length ∧ (tokens line).getD 0 "" = sectionsKW.getD i ""

instance (i : Nat) (line : String) : Decidable (isKwLine i line) := by
  unfold isKwLine; infer_instance

/-- Specification-side rendering of claim C4: the zero-based index of the
last line whose first token equals the `i`-th section keyword, or `0` if
no such line exists. -/
def lastKwOffset (i : Nat) (lines : List String) : Nat :=
  ((lines.enum.filter (fun p => isKwLine i p.2)).map Prod.fst).getLastD 0

/-- Specification-side rendering of claim C5: the zero-based index of the
first line whose first token equals the `i`-th section keyword, or `0` if
no such line exists. -/
def firstKwOffset (i : Nat) (lines : List String) : Nat :=
  ((lines.enum.filter (fun p => isKwLine i p.2)).map Prod.fst).headD 0

/-- Single-scan form of `lastKwOffset` used to relate it to the
`parse_lid` loop: `c` is the index of the first line of the remaining
list, `acc` the most recent match so far. -/
def lastKwAux (i : Nat) : List String → Nat → Nat → Nat
  | [], _, acc => acc
  | l :: r, c, acc => lastKwAux i r (c + 1) (if isKwLine i l then c else acc)

/-- The `lid_header` loop breaks at this line: none of the three record
shapes matches and the first token is a section keyword (the final `elif`
of source lines 64-78). -/
def isBreakLine (line : String) : Prop :=
  ¬(2 ≤ (tokens line).length ∧ (tokens line).getD 1 "" ∈ molecular_prop) ∧
  ¬(3 ≤ (tokens line).length ∧ (tokens line).getD 1 "" ∈ types_prop) ∧
  ¬(4 ≤ (tokens line).length ∧ (tokens line).getD 2 "" ∈ boundary_prop) ∧
  (1 ≤ (tokens line).length ∧ (tokens line).getD 0 "" ∈ sectionsKW)

instance (line : String) : Decidable (isBreakLine line) := by
  unfold isBreakLine; infer_instance

/-! ### Characterization of `parse_lid` -/

theorem sectionsKW_getD_0 : sectionsKW.getD 0 "" = "Masses" := rfl

theorem sectionsKW_getD_1 : sectionsKW.getD 1 "" = "Atoms" := rfl

theorem sectionsKW_getD_2 : sectionsKW.getD 2 "" = "Bonds" := rfl

theorem sectionsKW_getD_3 : sectionsKW.getD 3 "" = "Angles" := rfl

theorem sectionsKW_getD_4 : sectionsKW.getD 4 "" = "Dihedrals" := rfl

theorem sectionsKW_getD_5 : sectionsKW.getD 5 "" = "Impropers" := rfl

theorem getD_set_self (l : List Nat) (i : Nat) (a : Nat) (h : i < l.length) :
    (l.set i a).getD i 0 = a := by
  simp [List.getD_eq_getElem?_getD, List.getElem?_set_self h]

theorem getD_set_ne (l : List Nat) (i j : Nat) (a : Nat) (h : i ≠ j) :
    (l.set i a).getD j 0 = l.getD j 0 := by
  simp [List.getD_eq_getElem?_getD, List.getElem?_set_ne h]

/-- One `parse_lid` iteration updates entry `i` to the current counter
exactly when the line's first token is the `i`-th keyword, and leaves it
unchanged otherwise. -/
theorem parse_step_getD (line : String) (t : List Nat) (c : Nat) (ht : t.length = 6)
    {i : Nat} (hi : i < 6) :
    (parse_step line t c).getD i 0 = if isKwLine i line then c else t.getD i 0 := by
  unfold parse_step isKwLine
  interval_cases i <;>
    · simp only [sectionsKW_getD_0, sectionsKW_getD_1, sectionsKW_getD_2,
        sectionsKW_getD_3, sectionsKW_getD_4, sectionsKW_getD_5]
      split_ifs <;> simp_all [getD_set_self, getD_set_ne]

theorem parse_step_length (line : String) (t : List Nat) (c : Nat) :
    (parse_step line t c).length = t.length := by
  unfold parse_step
  split_ifs <;> simp [List.length_set]

theorem parse_lid_scan_length (ls : List String) (t : List Nat) (c : Nat) :
    (parse_lid_scan ls t c).length = t.length := by
  induction ls generalizing t c with
  | nil => rfl
  | cons l r ih => simp only [parse_lid_scan]; rw [ih, parse_step_length]

theorem parse_lid_length (lines : List String) : (parse_lid lines).length = 6 :=
  parse_lid_scan_length lines _ 0

/-- The `parse_lid` loop computes, entry by entry, the single-scan
last-occurrence accumulator `lastKwAux`. -/
theorem parse_lid_scan_getD (ls : List String) (t : List Nat) (c : Nat) (ht : t.length = 6)
    {i : Nat} (hi : i < 6) :
    (parse_lid_scan ls t c).getD i 0 = lastKwAux i ls c (t.getD i 0) := by
  induction ls generalizing t c with
  | nil => rfl
  | cons l r ih =>
    simp only [parse_lid_scan, lastKwAux]
    rw [ih (parse_step l t c) (c + 1) (by rw [parse_step_length]; exact ht),
      parse_step_getD l t c ht hi]

/-- `lastKwAux` agrees with the last matching index of the enumerated
line list. -/
theorem lastKwAux_eq (i : Nat) (ls : List String) (c acc : Nat) :
    lastKwAux i ls c acc =
      (((List.enumFrom c ls).filter (fun p => isKwLine i p.2)).map Prod.fst).getLastD acc := by
  induction ls generalizing c acc with
  | nil => rfl
  | cons l r ih =>
    simp only [lastKwAux, List.enumFrom_cons, List.filter_cons]
    by_cases h : isKwLine i l
    · rw [if_pos h, if_pos (decide_eq_true h), List.map_cons, List.getLastD_cons, ih]
    · rw [if_neg h, if_neg (by simp only [decide_eq_true_eq]; exact h), ih]

theorem initial_table_getD (i : Nat) (hi : i < 6) :
    ([0, 0, 0, 0, 0, 0] : List Nat).getD i 0 = 0 := by
  interval_cases i <;> rfl

/-- Entry `i` of the table equals the index of the last line whose first
token is the `i`-th keyword (`0` when there is none). -/
theorem parse_lid_getD_eq_lastKwOffset (lines : List String) {i : Nat} (hi : i < 6) :
    (parse_lid lines).getD i 0 = lastKwOffset i lines := by
  unfold parse_lid lastKwOffset
  rw [parse_lid_scan_getD lines [0, 0, 0, 0, 0, 0] 0 rfl hi, initial_table_getD i hi,
    lastKwAux_eq]
  rfl

/-! ### Bounds on table entries -/

theorem getLastD_cases (l : List Nat) (d : Nat) : l.getLastD d = d ∨ l.getLastD d ∈ l := by
  induction l generalizing d with
  | nil => exact Or.inl rfl
  | cons a r ih =>
    rw [List.getLastD_cons]
    rcases ih a with h | h
    · exact Or.inr (by rw [h]; exact List.mem_cons_self a r)
    · exact Or.inr (List.mem_cons_of_mem a h)

theorem fst_lt_of_mem_enumFrom {p : Nat × String} {n : Nat} {l : List String}
    (h : p ∈ List.enumFrom n l) : p.1 < n + l.length := by
  induction l generalizing n with
  | nil => simp [List.enumFrom] at h
  | cons a r ih =>
    rw [List.enumFrom_cons] at h
    rcases List.mem_cons.mp h with h | h
    · subst h; simp
    · have := ih h; simp only [List.length_cons]; omega

theorem snd_mem_of_mem_enumFrom {p : Nat × String} {n : Nat} {l : List String}
    (h : p ∈ List.enumFrom n l) : p.2 ∈ l := by
  induction l generalizing n with
  | nil => simp [List.enumFrom] at h
  | cons a r ih =>
    rw [List.enumFrom_cons] at h
    rcases List.mem_cons.mp h with h | h
    · subst h; exact List.mem_cons_self a r
    · exact List.mem_cons_of_mem a (ih h)

theorem lastKwOffset_bound (i : Nat) (lines : List String) :
    lastKwOffset i lines = 0 ∨ lastKwOffset i lines < lines.length := by
  unfold lastKwOffset
  rcases getLastD_cases ((lines.enum.filter (fun p => isKwLine i p.2)).map Prod.fst) 0 with h | h
  · exact Or.inl h
  · rcases List.mem_map.mp h with ⟨p, hp, hfst⟩
    have := fst_lt_of_mem_enumFrom (List.mem_of_mem_filter hp)
    exact Or.inr (hfst ▸ (by simpa using this))

theorem parse_lid_entry_bound (lines : List String) {i : Nat} (hi : i < 6) :
    (parse_lid lines).getD i 0 = 0 ∨ (parse_lid lines).getD i 0 < lines.length := by
  rw [parse_lid_getD_eq_lastKwOffset lines hi]
  exact lastKwOffset_bound i lines

theorem parse_lid_mem_bound (lines : List String) {e : Nat} (he : e ∈ parse_lid lines) :
    e = 0 ∨ e < lines.length := by
  rcases List.mem_iff_getElem.mp he with ⟨j, hj, hget⟩
  have hj6 : j < 6 := by rwa [parse_lid_length] at hj
  have : (parse_lid lines).getD j 0 = e := by rw [List.getD_eq_getElem _ _ hj, hget]
  rcases parse_lid_entry_bound lines hj6 with h | h
  · exact Or.inl (this ▸ h)
  · exact Or.inr (this ▸ h)

/-! ### Facts about the Python helpers -/

theorem le_foldl_max (r : List Nat) (a : Nat) : a ≤ r.foldl max a := by
  induction r generalizing a with
  | nil => exact Nat.le_refl a
  | cons b r ih => exact le_trans (le_max_left a b) (ih (max a b))

theorem foldl_max_mem (r : List Nat) (a : Nat) : r.foldl max a = a ∨ r.foldl max a ∈ r := by
  induction r generalizing a with
  | nil => exact Or.inl rfl
  | cons b r ih =>
    rcases ih (max a b) with h | h
    · rcases max_choice a b with hm | hm
      · exact Or.inl (by rw [List.foldl_cons, h, hm])
      · refine Or.inr ?_
        rw [List.foldl_cons, h, hm]
        exact List.mem_cons_self b r
    · exact Or.inr (List.mem_cons_of_mem b h)

theorem mem_le_foldl_max (r : List Nat) (a : Nat) {x : Nat} (hx : x ∈ r) :
    x ≤ r.foldl max a := by
  induction r generalizing a with
  | nil => cases hx
  | cons b r ih =>
    rcases List.mem_cons.mp hx with h | h
    · subst h; exact le_trans (le_max_right a x) (le_foldl_max r (max a x))
    · exact ih (max a b) h

theorem pyMaxNat_mem {l : List Nat} (h : l ≠ []) : pyMaxNat l ∈ l := by
  cases l with
  | nil => exact absurd rfl h
  | cons a r =>
    show r.foldl max a ∈ a :: r
    rcases foldl_max_mem r a with hm | hm
    · rw [hm]; exact List.mem_cons_self a r
    · exact List.mem_cons_of_mem a hm

theorem le_pyMaxNat {l : List Nat} {x : Nat} (hx : x ∈ l) : x ≤ pyMaxNat l := by
  cases l with
  | nil => cases hx
  | cons a r =>
    show x ≤ r.foldl max a
    rcases List.mem_cons.mp hx with h | h
    · exact h ▸ le_foldl_max r a
    · exact mem_le_foldl_max r a h

theorem foldl_min_le (r : List Int) (a : Int) : r.foldl min a ≤ a := by
  induction r generalizing a with
  | nil => exact le_refl a
  | cons b r ih => exact le_trans (ih (min a b)) (min_le_left a b)

theorem foldl_min_mem (r : List Int) (a : Int) : r.foldl min a = a ∨ r.foldl min a ∈ r := by
  induction r generalizing a with
  | nil => exact Or.inl rfl
  | cons b r ih =>
    rcases ih (min a b) with h | h
    · rcases min_choice a b with hm | hm
      · exact Or.inl (by rw [List.foldl_cons, h, hm])
      · refine Or.inr ?_
        rw [List.foldl_cons, h, hm]
        exact List.mem_cons_self b r
    · exact Or.inr (List.mem_cons_of_mem b h)

theorem foldl_min_le_mem (r : List Int) (a : Int) {x : Int} (hx : x ∈ r) :
    r.foldl min a ≤ x := by
  induction r generalizing a with
  | nil => cases hx
  | cons b r ih =>
    rcases List.mem_cons.mp hx with h | h
    · subst h; exact le_trans (foldl_min_le r (min a x)) (min_le_right a x)
    · exact ih (min a b) h

theorem pyMinInt_mem {l : List Int} (h : l ≠ []) : pyMinInt l ∈ l := by
  cases l with
  | nil => exact absurd rfl h
  | cons a r =>
    show r.foldl min a ∈ a :: r
    rcases foldl_min_mem r a with hm | hm
    · rw [hm]; exact List.mem_cons_self a r
    · exact List.mem_cons_of_mem a hm

theorem pyMinInt_le {l : List Int} {x : Int} (hx : x ∈ l) : pyMinInt l ≤ x := by
  cases l with
  | nil => cases hx
  | cons a r =>
    show pyMinInt (a :: r) ≤ x
    show r.foldl min a ≤ x
    rcases List.mem_cons.mp hx with h | h
    · exact h ▸ foldl_min_le r a
    · exact foldl_min_le_mem r a h

theorem pyIndexOf_lt_length {l : List Int} {x : Int} (hx : x ∈ l) :
    pyIndexOf l x < l.length := by
  induction l with
  | nil => cases hx
  | cons a r ih =>
    unfold pyIndexOf
    by_cases h : a = x
    · simp [h]
    · have : x ∈ r := by
        rcases List.mem_cons.mp hx with h' | h'
        · exact absurd h'.symm h
        · exact h'
      simp only [if_neg h, List.length_cons]
      exact Nat.succ_lt_succ (ih this)

theorem getD_pyIndexOf {l : List Int} {x : Int} (hx : x ∈ l) (d : Int) :
    l.getD (pyIndexOf l x) d = x := by
  induction l with
  | nil => cases hx
  | cons a r ih =>
    unfold pyIndexOf
    by_cases h : a = x
    · simp [h]
    · have : x ∈ r := by
        rcases List.mem_cons.mp hx with h' | h'
        · exact absurd h'.symm h
        · exact h'
      simp only [if_neg h, List.getD_cons_succ]
      exact ih this

/-! ### Python slice lemmas -/

theorem pySlice_neg_one {α : Type} (l : List α) : pySlice l (-1) (some (-1)) = [] := by
  unfold pySlice pyStop
  simp [Nat.sub_self]

theorem pySlice_natCast_none {α : Type} (l : List α) (s : Nat) :
    pySlice l (s : Int) none = l.drop s := by
  unfold pySlice pyStop pyBound
  rw [if_neg (by omega : ¬((s : Int) < 0)), Int.toNat_natCast]
  rcases le_or_lt s l.length with h | h
  · rw [min_eq_left h]
    exact List.take_of_length_le (le_of_eq (List.length_drop s l))
  · rw [min_eq_right (le_of_lt h), List.drop_length, List.drop_eq_nil_of_le (le_of_lt h)]
    simp

theorem pySlice_natCast_some {α : Type} (l : List α) (s e : Nat) (hs : s ≤ l.length)
    (he : e ≤ l.length) :
    pySlice l (s : Int) (some (e : Int)) = (l.drop s).take (e - s) := by
  simp only [pySlice, pyStop, pyBound]
  rw [if_neg (by omega : ¬((s : Int) < 0)), if_neg (by omega : ¬((e : Int) < 0)),
    Int.toNat_natCast, Int.toNat_natCast, min_eq_left hs, min_eq_left he]

/-! ### The three branches of the shared extractor -/

theorem extract_absent {k : Nat} {lines : List String}
    (h : (parse_lid lines).getD k 0 = 0) : extractSection k lines = [] := by
  simp only [extractSection, h]
  simp [extractBody, pySlice_neg_one]

theorem extract_last {k : Nat} {lines : List String}
    (h0 : (parse_lid lines).getD k 0 ≠ 0)
    (hmax : (parse_lid lines).getD k 0 = pyMaxNat (parse_lid lines)) :
    extractSection k lines =
      ((lines.drop ((parse_lid lines).getD k 0 + 1)).map tokens).filter
        (fun l => l ≠ []) := by
  simp only [extractSection]
  rw [if_neg h0, if_pos hmax]
  unfold extractBody
  have hc : ((parse_lid lines).getD k 0 : Int) + 1
      = (((parse_lid lines).getD k 0 + 1 : Nat) : Int) := by push_cast; ring
  rw [hc, pySlice_natCast_none]


theorem stopDiffs_length (T : List Nat) (off : Nat) :
    (stopDiffs T off).length = T.length := by
  unfold stopDiffs
  exact List.length_map T _

theorem stopDiffs_ne_nil {T : List Nat} (h : T ≠ []) (off : Nat) :
    stopDiffs T off ≠ [] := by
  intro hnil
  have := stopDiffs_length T off
  rw [hnil] at this
  exact h (List.length_eq_zero.mp this.symm)

/-- In the middle branch, `min(stop)` followed by `stop.index(...)` and the
table lookup recover exactly the nearest boundary offset `m`, provided all
entries stay below the sentinel. -/
theorem stopOf_eq {T : List Nat} {off m : Nat} (hT : T ≠ [])
    (hsmall : ∀ e ∈ T, e < 5000000000000)
    (hm_mem : m ∈ T) (hm_gt : off < m) (hm_min : ∀ e ∈ T, off < e → m ≤ e) :
    stopOf T off = m := by
  have hfm : ((m : Int) - (off : Int)) ∈ stopDiffs T off := by
    unfold stopDiffs
    refine List.mem_map.mpr ⟨m, hm_mem, ?_⟩
    rw [if_neg (by omega), if_neg (by omega)]
  have hlb : ∀ x ∈ stopDiffs T off, (m : Int) - (off : Int) ≤ x := by
    intro x hx
    unfold stopDiffs at hx
    rcases List.mem_map.mp hx with ⟨e, heT, hfe⟩
    have hesmall := hsmall e heT
    have hmsmall := hsmall m hm_mem
    by_cases h1 : (e : Int) - (off : Int) = 0
    · rw [← hfe, if_pos h1]
      unfold sentinel
      omega
    · by_cases h2 : (e : Int) - (off : Int) < 0
      · rw [← hfe, if_neg h1, if_pos h2]
        unfold sentinel
        omega
      · rw [← hfe, if_neg h1, if_neg h2]
        have : off < e := by omega
        have := hm_min e heT this
        omega
  have hvmin : pyMinInt (stopDiffs T off) = (m : Int) - (off : Int) :=
    le_antisymm (pyMinInt_le hfm) (hlb _ (pyMinInt_mem (stopDiffs_ne_nil hT off)))
  have hjlt : pyIndexOf (stopDiffs T off) (pyMinInt (stopDiffs T off)) < T.length := by
    have := pyIndexOf_lt_length (pyMinInt_mem (stopDiffs_ne_nil hT off))
    rwa [stopDiffs_length] at this
  have hDj : (stopDiffs T off).getD
      (pyIndexOf (stopDiffs T off) (pyMinInt (stopDiffs T off))) 0
      = (m : Int) - (off : Int) := by
    rw [getD_pyIndexOf (pyMinInt_mem (stopDiffs_ne_nil hT off)) 0, hvmin]
  unfold stopOf
  set j := pyIndexOf (stopDiffs T off) (pyMinInt (stopDiffs T off)) with hj
  have hjD : j < (stopDiffs T off).length := by rw [stopDiffs_length]; exact hjlt
  have hTj_mem : T.getD j 0 ∈ T := by
    rw [List.getD_eq_getElem T 0 hjlt]
    exact List.getElem_mem hjlt
  have hgd : (stopDiffs T off).getD j 0
      = (if ((T.getD j 0 : Int)) - (off : Int) = 0 then sentinel
         else if ((T.getD j 0 : Int)) - (off : Int) < 0 then sentinel
         else ((T.getD j 0 : Int)) - (off : Int)) := by
    unfold stopDiffs
    rw [List.getD_eq_getElem _ _ (by rw [List.length_map]; exact hjlt),
      List.getElem_map, List.getD_eq_getElem T 0 hjlt]
  rw [hgd] at hDj
  have hmsmall := hsmall m hm_mem
  have hTjsmall := hsmall _ hTj_mem
  by_cases h1 : ((T.getD j 0 : Int)) - (off : Int) = 0
  · rw [if_pos h1] at hDj
    unfold sentinel at hDj
    omega
  · by_cases h2 : ((T.getD j 0 : Int)) - (off : Int) < 0
    · rw [if_neg h1, if_pos h2] at hDj
      unfold sentinel at hDj
      omega
    · rw [if_neg h1, if_neg h2] at hDj
      omega

/-- The middle branch of the shared extractor: with a valid nearest
boundary `m` and every line index below the sentinel, the body is the
slice `[offset + 1, m)`, tokenized and stripped of blank lines. -/
theorem extract_middle {k : Nat} {lines : List String} (hk : k < 6)
    (hbound : lines.length ≤ 5000000000000)
    (h0 : (parse_lid lines).getD k 0 ≠ 0)
    (hlt : (parse_lid lines).getD k 0 < pyMaxNat (parse_lid lines))
    {m : Nat} (hm_mem : m ∈ parse_lid lines)
    (hm_gt : (parse_lid lines).getD k 0 < m)
    (hm_min : ∀ e ∈ parse_lid lines, (parse_lid lines).getD k 0 < e → m ≤ e) :
    extractSection k lines =
      (((lines.drop ((parse_lid lines).getD k 0 + 1)).take
          (m - ((parse_lid lines).getD k 0 + 1))).map tokens).filter
        (fun l => l ≠ []) := by
  have hTlen := parse_lid_length lines
  have hTne : parse_lid lines ≠ [] := by
    intro h
    rw [h] at hTlen
    simp at hTlen
  have hsmall : ∀ e ∈ parse_lid lines, e < 5000000000000 := by
    intro e he
    rcases parse_lid_mem_bound lines he with h | h <;> omega
  have hoff_mem : (parse_lid lines).getD k 0 ∈ parse_lid lines := by
    rw [List.getD_eq_getElem _ 0 (by omega : k < (parse_lid lines).length)]
    exact List.getElem_mem _
  have hoff_lt : (parse_lid lines).getD k 0 < lines.length := by
    rcases parse_lid_mem_bound lines hoff_mem with h | h
    · exact absurd h h0
    · exact h
  have hm_lt : m < lines.length := by
    rcases parse_lid_mem_bound lines hm_mem with h | h
    · omega
    · exact h
  have hstop : stopOf (parse_lid lines) ((parse_lid lines).getD k 0) = m :=
    stopOf_eq hTne hsmall hm_mem hm_gt hm_min
  simp only [extractSection]
  rw [if_neg h0, if_neg (ne_of_lt hlt), hstop]
  unfold extractBody
  have hc : ((parse_lid lines).getD k 0 : Int) + 1
      = (((parse_lid lines).getD k 0 + 1 : Nat) : Int) := by
    push_cast
    ring
  rw [hc, pySlice_natCast_some _ _ _ (by omega) (le_of_lt hm_lt)]


/-! ### Header scan: the break line and suffix independence -/

/-- A break line makes `lid_header_step` return the break signal. -/
theorem lid_header_step_break {line : String} (h : isBreakLine line) (st : HeaderState) :
    lid_header_step line st = .ok none := by
  obtain ⟨h1, h2, h3, h4⟩ := h
  simp only [lid_header_step]
  rw [if_neg h1, if_neg h2, if_neg h3, if_pos h4]

/-- Once a break line is reached, the suffix after it never influences the
header scan. -/
theorem lid_header_scan_break {line : String} (h : isBreakLine line)
    (pre suf : List String) (st : HeaderState) :
    lid_header_scan (pre ++ line :: suf) st = lid_header_scan pre st := by
  induction pre generalizing st with
  | nil =>
    simp only [List.nil_append, lid_header_scan, lid_header_step_break h]
  | cons p r ih =>
    simp only [List.cons_append, lid_header_scan]
    cases lid_header_step p st with
    | error e => rfl
    | ok o =>
      cases o with
      | none => rfl
      | some st2 => exact ih st2

/-! ### Sections that never occur, and occurrence structure of `lastKwAux` -/

/-- If no line has the `i`-th keyword as first token, the recorded entry
stays `0`. -/
theorem parse_lid_entry_zero {lines : List String} {i : Nat} (hi : i < 6)
    (h : ∀ line ∈ lines, ¬ isKwLine i line) : (parse_lid lines).getD i 0 = 0 := by
  rw [parse_lid_getD_eq_lastKwOffset lines hi]
  unfold lastKwOffset
  have hnil : lines.enum.filter (fun p => isKwLine i p.2) = [] := by
    rw [List.filter_eq_nil_iff]
    intro p hp
    simp only [decide_eq_true_eq]
    exact h p.2 (snd_mem_of_mem_enumFrom hp)
  rw [hnil]
  rfl

/-- `lastKwAux` returns either its accumulator or `c + j` for some
matching index `j`. -/
theorem lastKwAux_cases (i : Nat) (ls : List String) (c acc : Nat) :
    lastKwAux i ls c acc = acc ∨
      ∃ j, j < ls.length ∧ isKwLine i (ls.getD j "") ∧ lastKwAux i ls c acc = c + j := by
  induction ls generalizing c acc with
  | nil => exact Or.inl rfl
  | cons l r ih =>
    rw [lastKwAux]
    rcases ih (c + 1) (if isKwLine i l then c else acc) with h | ⟨j, hj, hm, heq⟩
    · by_cases hl : isKwLine i l
      · refine Or.inr ⟨0, by simp, by simpa using hl, ?_⟩
        rw [h, if_pos hl]
        omega
      · rw [h, if_neg hl]
        exact Or.inl rfl
    · refine Or.inr ⟨j + 1, by simpa using hj, by simpa using hm, ?_⟩
      rw [heq]
      omega

/-- When a matching line exists, `lastKwAux` returns `c + j` for a
matching `j`. -/
theorem lastKwAux_exists_match (i : Nat) (ls : List String) (c acc : Nat)
    (hex : ∃ j, j < ls.length ∧ isKwLine i (ls.getD j "")) :
    ∃ j, j < ls.length ∧ isKwLine i (ls.getD j "") ∧ lastKwAux i ls c acc = c + j := by
  induction ls generalizing c acc with
  | nil =>
    obtain ⟨j, hj, _⟩ := hex
    exact absurd hj (by simp)
  | cons l r ih =>
    rw [lastKwAux]
    by_cases hr : ∃ j, j < r.length ∧ isKwLine i (r.getD j "")
    · obtain ⟨j, hj, hm, heq⟩ := ih (c + 1) (if isKwLine i l then c else acc) hr
      refine ⟨j + 1, by simpa using hj, by simpa using hm, ?_⟩
      rw [heq]
      omega
    · have hl : isKwLine i l := by
        obtain ⟨j, hj, hm⟩ := hex
        cases j with
        | zero => simpa using hm
        | succ j2 =>
          exact absurd ⟨j2, by simpa using hj, by simpa using hm⟩ hr
      rcases lastKwAux_cases i r (c + 1) (if isKwLine i l then c else acc) with h | ⟨j, hj, hm, heq⟩
      · refine ⟨0, by simp, by simpa using hl, ?_⟩
        rw [h, if_pos hl]
        omega
      · exact absurd ⟨j, hj, hm⟩ hr

/-- Every matching index is bounded by the `lastKwAux` result. -/
theorem lastKwAux_ub (i : Nat) (ls : List String) (c acc : Nat)
    {j : Nat} (hj : j < ls.length) (hm : isKwLine i (ls.getD j "")) :
    c + j ≤ lastKwAux i ls c acc := by
  induction ls generalizing c acc j with
  | nil => exact absurd hj (by simp)
  | cons l r ih =>
    rw [lastKwAux]
    cases j with
    | zero =>
      have hl : isKwLine i l := by simpa using hm
      rw [if_pos hl]
      rcases lastKwAux_cases i r (c + 1) c with h | ⟨j2, _, _, heq⟩
      · omega
      · omega
    | succ j2 =>
      have := ih (c + 1) (if isKwLine i l then c else acc) (j := j2)
        (by simpa using hj) (by simpa using hm)
      omega

/-! ### `parse_lid_scan` over appended and blank lines -/

theorem parse_lid_scan_append (xs ys : List String) (t : List Nat) (c : Nat) :
    parse_lid_scan (xs ++ ys) t c = parse_lid_scan ys (parse_lid_scan xs t c) (c + xs.length) := by
  induction xs generalizing t c with
  | nil => simp [parse_lid_scan]
  | cons l r ih =>
    simp only [List.cons_append, parse_lid_scan, List.length_cons, List.append_eq]
    rw [ih]
    congr 1
    omega

theorem parse_step_blank (t : List Nat) (c : Nat) : parse_step "" t c = t := by
  have htok : tokens "" = [] := rfl
  unfold parse_step
  rw [htok]
  norm_num

theorem parse_lid_scan_replicate_blank (q : Nat) (t : List Nat) (c : Nat) :
    parse_lid_scan (List.replicate q "") t c = t := by
  induction q generalizing c with
  | zero => rfl
  | succ q2 ih =>
    rw [List.replicate_succ]
    simp only [parse_lid_scan]
    rw [parse_step_blank]
    exact ih (c + 1)


/-! ### A file longer than the sentinel distance -/

theorem pySlice_stop_zero {α : Type} (l : List α) (s : Int) : pySlice l s (some 0) = [] := by
  simp only [pySlice, pyStop, pyBound]
  rw [if_neg (by omega : ¬((0 : Int) < 0))]
  simp

/-- A file whose `Atoms` body would end 5000000000002 lines later: past
the sentinel distance used by the extractors. -/
def exC1 : List String :=
  ["x", "Atoms", "y y"] ++ (List.replicate 5000000000000 "" ++ ["Bonds"])

theorem parse_lid_exC1 : parse_lid exC1 = [0, 1, 5000000000003, 0, 0, 0] := by
  unfold exC1 parse_lid
  rw [parse_lid_scan_append]
  rw [show parse_lid_scan ["x", "Atoms", "y y"] [0, 0, 0, 0, 0, 0] 0
      = [0, 1, 0, 0, 0, 0] from by decide]
  rw [parse_lid_scan_append, parse_lid_scan_replicate_blank, List.length_replicate]
  decide

theorem atoms_exC1_eq_nil : atoms exC1 = [] := by
  unfold atoms
  simp only [extractSection, parse_lid_exC1]
  rw [if_neg (by decide), if_neg (by decide)]
  rw [show stopOf [0, 1, 5000000000003, 0, 0, 0]
      (([0, 1, 5000000000003, 0, 0, 0] : List Nat).getD 1 0) = 0 from by decide]
  rw [show ((0 : Nat) : Int) = (0 : Int) from rfl]
  unfold extractBody
  rw [pySlice_stop_zero]
  rfl

theorem exC1_claim_body :
    (((exC1.drop 2).take (5000000000003 - 2)).map tokens).filter (fun l => l ≠ [])
      = [["y", "y"]] := by
  have h1 : exC1.drop 2 = "y y" :: (List.replicate 5000000000000 "" ++ ["Bonds"]) := rfl
  have h2 : (5000000000003 - 2 : Nat) = 5000000000000 + 1 := by norm_num
  rw [h1, h2, List.take_succ_cons]
  have h3 : List.take 5000000000000 (List.replicate 5000000000000 "" ++ ["Bonds"])
      = List.replicate 5000000000000 ("" : String) := by
    have h4 := List.take_left (List.replicate 5000000000000 ("" : String)) ["Bonds"]
    rwa [List.length_replicate] at h4
  rw [h3, List.map_cons, List.map_replicate]
  rw [show tokens "y y" = ["y", "y"] from rfl, show tokens "" = ([] : List String) from rfl]
  rw [List.filter_cons, List.filter_replicate]
  simp


/-! ### The claims -/

/-- The six-line file of the concrete test scenario. -/
def scenario9 : List String :=
  ["2 atoms", "1 atom types", "0.0 10.0 xlo xhi", "Atoms",
   "1 1 1 0.0 0.0 0.0 0.0", "2 1 1 0.0 1.0 0.0 0.0"]

/-- Claim C1 (amended): for a target section whose recorded offset is
nonzero and strictly below the maximum table offset, the extractor returns
the tokenized non-blank lines with indices in `[offset + 1, m)`, where `m`
is the smallest table offset strictly greater than the target offset —
provided the file has at most 5000000000000 lines, so that no positive
offset difference reaches the sentinel distance. -/
theorem c1_body_between_nearest_boundaries (lines : List String) (k : Nat) (hk : k < 6)
    (hbound : lines.length ≤ 5000000000000)
    (h0 : (parse_lid lines).getD k 0 ≠ 0)
    (hlt : (parse_lid lines).getD k 0 < pyMaxNat (parse_lid lines))
    (m : Nat) (hm_mem : m ∈ parse_lid lines)
    (hm_gt : (parse_lid lines).getD k 0 < m)
    (hm_min : ∀ e ∈ parse_lid lines, (parse_lid lines).getD k 0 < e → m ≤ e) :
    extractSection k lines =
      (((lines.drop ((parse_lid lines).getD k 0 + 1)).take
          (m - ((parse_lid lines).getD k 0 + 1))).map tokens).filter (fun l => l ≠ []) :=
  extract_middle hk hbound h0 hlt hm_mem hm_gt hm_min

/-- Witness for C1: a six-line file whose `Masses` body is delimited by the
following `Atoms` keyword at offset 4. -/
theorem c1_body_between_nearest_boundaries_witness :
    extractSection 0 ["hdr", "Masses", "1 12.0", "", "Atoms", "1 1 0.0"] =
      (((["hdr", "Masses", "1 12.0", "", "Atoms", "1 1 0.0"].drop
          ((parse_lid ["hdr", "Masses", "1 12.0", "", "Atoms", "1 1 0.0"]).getD 0 0 + 1)).take
          (4 - ((parse_lid ["hdr", "Masses", "1 12.0", "", "Atoms", "1 1 0.0"]).getD 0 0 + 1))).map
        tokens).filter (fun l => l ≠ []) :=
  c1_body_between_nearest_boundaries ["hdr", "Masses", "1 12.0", "", "Atoms", "1 1 0.0"] 0
    (by decide) (by decide) (by decide) (by decide) 4 (by decide) (by decide) (by decide)

/-- Counterexample to C1 as stated: in a file with more lines than the
sentinel `5000000000000`, every positive offset difference exceeds the
sentinel, `min(stop)` picks a sentinel slot, the slice collapses to
`lines[2:0] = []`, and the extractor misses the `"y y"` body line that the
claim requires. -/
theorem c1_sentinel_overflow_counterexample :
    (parse_lid exC1).getD 1 0 ≠ 0 ∧
    (parse_lid exC1).getD 1 0 < pyMaxNat (parse_lid exC1) ∧
    (5000000000003 : Nat) ∈ parse_lid exC1 ∧
    (parse_lid exC1).getD 1 0 < 5000000000003 ∧
    (∀ e ∈ parse_lid exC1, (parse_lid exC1).getD 1 0 < e → 5000000000003 ≤ e) ∧
    atoms exC1 ≠
      (((exC1.drop ((parse_lid exC1).getD 1 0 + 1)).take
          (5000000000003 - ((parse_lid exC1).getD 1 0 + 1))).map tokens).filter
        (fun l => l ≠ []) := by
  refine ⟨?_, ?_, ?_, ?_, ?_, ?_⟩ <;> rw [parse_lid_exC1]
  · decide
  · decide
  · decide
  · decide
  · decide
  · rw [atoms_exC1_eq_nil,
      show (([0, 1, 5000000000003, 0, 0, 0] : List Nat).getD 1 0 + 1) = 2 from rfl,
      exC1_claim_body]
    decide

/-- Claim C2: a section whose nonzero offset equals the maximum table
offset is the last section; its body is everything after the keyword line,
to end of file, tokenized with blank lines dropped. -/
theorem c2_last_section_to_eof (lines : List String) (k : Nat)
    (h0 : (parse_lid lines).getD k 0 ≠ 0)
    (hmax : (parse_lid lines).getD k 0 = pyMaxNat (parse_lid lines)) :
    extractSection k lines =
      ((lines.drop ((parse_lid lines).getD k 0 + 1)).map tokens).filter (fun l => l ≠ []) :=
  extract_last h0 hmax

/-- Witness for C2: `Masses` is the last (and only) section. -/
theorem c2_last_section_to_eof_witness :
    extractSection 0 ["x", "Masses", "1 2", ""] =
      ((["x", "Masses", "1 2", ""].drop
          ((parse_lid ["x", "Masses", "1 2", ""]).getD 0 0 + 1)).map tokens).filter
        (fun l => l ≠ []) :=
  c2_last_section_to_eof ["x", "Masses", "1 2", ""] 0 (by decide) (by decide)

/-- Claim C3 (code bug): contrary to the no-error specification,
`lid_header` on a line with at least 4 tokens whose third token is `"zhi"`
assigns `boundary_data[6]` on a 6-element list and raises `IndexError`. -/
theorem c3_zhi_line_index_error :
    lid_header ["0.0 1.0 zhi zhi"] = .error "IndexError" := by decide

/-- Claim C4: each table entry records the zero-based index of the LAST
line whose first token equals the section keyword, or 0 when none exists;
the counter advances on every line, so indices are absolute. -/
theorem c4_last_occurrence_recorded (lines : List String) (i : Nat) (hi : i < 6) :
    (parse_lid lines).getD i 0 = lastKwOffset i lines :=
  parse_lid_getD_eq_lastKwOffset lines hi

/-- Witness for C4: with two `Masses` lines, the recorded offset is the
last one (index 3). -/
theorem c4_last_occurrence_recorded_witness :
    lastKwOffset 0 ["x", "Masses", "y", "Masses"] = 3 ∧
    (parse_lid ["x", "Masses", "y", "Masses"]).getD 0 0
      = lastKwOffset 0 ["x", "Masses", "y", "Masses"] :=
  ⟨by decide, c4_last_occurrence_recorded ["x", "Masses", "y", "Masses"] 0 (by decide)⟩

/-- Counterexample to C5 as stated: with duplicate `Masses` keywords the
first occurrence is at index 1, but `parse_lid` records index 3. -/
theorem c5_first_occurrence_counterexample :
    (parse_lid ["a b", "Masses", "c", "Masses"]).getD 0 0 ≠
      firstKwOffset 0 ["a b", "Masses", "c", "Masses"] ∧
    firstKwOffset 0 ["a b", "Masses", "c", "Masses"] = 1 ∧
    (parse_lid ["a b", "Masses", "c", "Masses"]).getD 0 0 = 3 := by decide

/-- Claim C5 (amended): entries reflect the LAST occurrence of each
keyword; with duplicates, every earlier occurrence is overwritten — the
recorded entry is itself a matching line and bounds every matching index
from above. -/
theorem c5_duplicate_keeps_last (lines : List String) (i : Nat) (hi : i < 6)
    (hex : ∃ j, j < lines.length ∧ isKwLine i (lines.getD j "")) :
    isKwLine i (lines.getD ((parse_lid lines).getD i 0) "") ∧
    ∀ j, j < lines.length → isKwLine i (lines.getD j "") →
      j ≤ (parse_lid lines).getD i 0 := by
  have hchar : (parse_lid lines).getD i 0 = lastKwAux i lines 0 0 := by
    unfold parse_lid
    rw [parse_lid_scan_getD lines [0, 0, 0, 0, 0, 0] 0 rfl hi, initial_table_getD i hi]
  constructor
  · obtain ⟨j, hj, hm, heq⟩ := lastKwAux_exists_match i lines 0 0 hex
    rw [hchar, heq]
    simpa using hm
  · intro j hj hm
    rw [hchar]
    have := lastKwAux_ub i lines 0 0 hj hm
    omega

/-- Witness for C5: a file with `Atoms` at indices 1 and 3. -/
theorem c5_duplicate_keeps_last_witness :
    isKwLine 1 (["q", "Atoms", "w", "Atoms"].getD
      ((parse_lid ["q", "Atoms", "w", "Atoms"]).getD 1 0) "") ∧
    ∀ j, j < (["q", "Atoms", "w", "Atoms"] : List String).length →
      isKwLine 1 (["q", "Atoms", "w", "Atoms"].getD j "") →
      j ≤ (parse_lid ["q", "Atoms", "w", "Atoms"]).getD 1 0 :=
  c5_duplicate_keeps_last ["q", "Atoms", "w", "Atoms"] 1 (by decide)
    ⟨1, by decide, by decide⟩

/-- Claim C6: when no line starts with the given section keyword, the
table entry is 0 and the extractor returns the absence marker (a result
with no body lines). -/
theorem c6_missing_section (lines : List String) (i : Nat) (hi : i < 6)
    (h : ∀ line ∈ lines, ¬ isKwLine i line) :
    (parse_lid lines).getD i 0 = 0 ∧ extractSection i lines = [] :=
  ⟨parse_lid_entry_zero hi h, extract_absent (parse_lid_entry_zero hi h)⟩

/-- Witness for C6: a file with an `Atoms` section but no `Masses`. -/
theorem c6_missing_section_witness :
    (parse_lid ["hello", "Atoms"]).getD 0 0 = 0 ∧
    extractSection 0 ["hello", "Atoms"] = [] :=
  c6_missing_section ["hello", "Atoms"] 0 (by decide) (by decide)

/-- Claim C7: a table offset of 0 always produces the empty list (never
the dead `None`): `start = stop = -1` yields an empty slice and the
filtering loop rebuilds the result as `[]` — the same value a present
section with an all-blank body would produce. -/
theorem c7_absent_returns_empty_list (lines : List String) (k : Nat)
    (h : (parse_lid lines).getD k 0 = 0) :
    extractSection k lines = [] :=
  extract_absent h

/-- Witness for C7: no sections at all. -/
theorem c7_absent_returns_empty_list_witness :
    extractSection 0 ["x"] = [] :=
  c7_absent_returns_empty_list ["x"] 0 (by decide)

/-- Counterexample to C8 as stated: `"Masses atoms"` has a section keyword
as first token, yet it matches the molecular-count branch (its second
token is `"atoms"`), so the scan does not stop there and a later line
still changes the header. -/
theorem c8_keyword_line_counterexample :
    (1 ≤ (tokens "Masses atoms").length ∧
      (tokens "Masses atoms").getD 0 "" ∈ sectionsKW) ∧
    lid_header ["Masses atoms", "7 atoms"] ≠ lid_header ["Masses atoms"] := by decide

/-- Claim C8 (amended): the header scan stops at the first line that
matches none of the three record shapes and whose first token is a section
keyword; nothing at or after such a line affects the result. -/
theorem c8_header_prefix_only (pre : List String) (line : String) (suf : List String)
    (h : isBreakLine line) :
    lid_header (pre ++ line :: suf) = lid_header pre :=
  lid_header_scan_break h pre suf _

/-- Witness for C8: everything after a bare `Masses` line is ignored. -/
theorem c8_header_prefix_only_witness :
    lid_header (["3 atoms"] ++ "Masses" :: ["9 atoms"]) = lid_header ["3 atoms"] :=
  c8_header_prefix_only ["3 atoms"] "Masses" ["9 atoms"] (by decide)

/-- Claim C9: the concrete six-line scenario — header counts `"2"` and
`"1"`, box bounds `"0.0"`/`"10.0"`, `Atoms` offset 3, two tokenized atom
rows, and every other section absent with the empty result. -/
theorem c9_concrete_scenario :
    lid_header scenario9 =
      .ok ([some "2", none, none, none, none],
           [some "1", none, none, none, none],
           [some "0.0", some "10.0", none, none, none, none]) ∧
    parse_lid scenario9 = [0, 3, 0, 0, 0, 0] ∧
    atoms scenario9 = [["1", "1", "1", "0.0", "0.0", "0.0", "0.0"],
                       ["2", "1", "1", "0.0", "1.0", "0.0", "0.0"]] ∧
    masses scenario9 = [] ∧ bonds scenario9 = [] ∧ angles scenario9 = [] ∧
    dihedrals scenario9 = [] ∧ impropers scenario9 = [] := by decide

/-- Claim C10: each extractor is a deterministic function of the file's
lines — two calls on the same unmodified content return identical
results. -/
theorem c10_extractor_deterministic (k : Nat) (lines1 lines2 : List String)
    (h : lines1 = lines2) :
    extractSection k lines1 = extractSection k lines2 := by
  rw [h]

/-- Witness for C10. -/
theorem c10_extractor_deterministic_witness :
    extractSection 1 ["Atoms", "1 2"] = extractSection 1 ["Atoms", "1 2"] :=
  c10_extractor_deterministic 1 ["Atoms", "1 2"] ["Atoms", "1 2"] rfl

end Lid
